import Mathlib

/-!
# WhaleVault — verification of the core protocol against its sources

Shallow embedding of the WhaleVault privacy-pool core:

* `circuits/withdraw.circom` / `circuits/merkle.circom` — the Withdraw and
  MerkleTreeChecker circuit constraint systems, embedded over an arbitrary
  field with the Poseidon hash injected as an opaque binary map
  `hash : F → F → F` (the circuits only instantiate `Poseidon(2)` as a
  black-box two-input hash).
* `frontend/lib/polling.ts` — `pollWithBackoff`, `createPollingController`
  and `pollWithBackoffAbortable`, embedded as fuel-based loops over an
  attempt-indexed probe oracle.
* `frontend/lib/transfer-parsing.ts` — `parseTransferDetails` and
  `validateManualEntry`, together with the "Copy All Details" text template
  from `frontend/app/history/page.tsx`.
* `frontend/lib/secret-derivation.ts` — `hasNonce`, `hasLegacySecret`,
  `getPositionSecret`.
* `frontend/app/history/page.tsx` — `handleImport` (duplicate-commitment
  rejection and imported-position construction).
* `frontend/stores/...` / `usePrivateTransfer.transfer` — the private
  transfer control flow, embedded as a pure function of the environment
  (the results of the external calls it performs).
-/

set_option autoImplicit false

namespace WhaleVault

/-! ## Circuit embedding (`merkle.circom`, `withdraw.circom`)

Signals are elements of the proving system's scalar field; we embed over an
arbitrary `Field F`.  `<==` both assigns and constrains, so deterministic
signal assignments become Lean functions and `===` constraints become
propositions. -/

section Circuit

variable {F : Type} [Field F]

/-- `DualMux` output signals (`merkle.circom` lines 19–20):
`out[0] = (in[1] - in[0])*s + in[0]`, `out[1] = (in[0] - in[1])*s + in[1]`. -/
def dualMuxOut (in0 in1 s : F) : F × F :=
  ((in1 - in0) * s + in0, (in0 - in1) * s + in1)

/-- `DualMux` constraint (`merkle.circom` line 18): `s * (1 - s) === 0`. -/
def dualMuxConstraint (s : F) : Prop := s * (1 - s) = 0

/-- `HashLeftRight` (`merkle.circom` lines 24–33): Poseidon of the ordered
pair. -/
def hashLeftRight (hash : F → F → F) (left right : F) : F := hash left right

/-- The chain `levelHashes` of `MerkleTreeChecker` (`merkle.circom`
lines 55–71): start from the leaf and at each level hash the `DualMux`-ordered
pair of the running hash and the sibling. -/
def merkleFold (hash : F → F → F) : F → List (F × F) → F
  | cur, [] => cur
  | cur, (pe, pi) :: rest =>
      merkleFold hash
        (hashLeftRight hash (dualMuxOut cur pe pi).1 (dualMuxOut cur pe pi).2) rest

/-- The constraint system of `MerkleTreeChecker(levels)` (`merkle.circom`
lines 46–75): path arrays have length `levels`, every selector satisfies the
`DualMux` boolean constraint, and the final level hash equals `root`. -/
def MerkleTreeCheckerConstraints (hash : F → F → F) (levels : ℕ) (leaf root : F)
    (pathElements pathIndices : List F) : Prop :=
  pathElements.length = levels ∧ pathIndices.length = levels ∧
  (∀ s ∈ pathIndices, dualMuxConstraint s) ∧
  root = merkleFold hash leaf (pathElements.zip pathIndices)

/-- The fold described by the specification: direction bit `0` hashes
`(current, sibling)`, direction bit `1` hashes `(sibling, current)`. -/
def specMerkleFold [DecidableEq F] (hash : F → F → F) : F → List (F × F) → F
  | cur, [] => cur
  | cur, (pe, pi) :: rest =>
      specMerkleFold hash (if pi = (0 : F) then hash cur pe else hash pe cur) rest

/-- `withdraw.circom` lines 39–42: `commitment = Poseidon(amount, secret)`,
amount as the first hash argument. -/
def withdrawCommitment (hash : F → F → F) (amount secret : F) : F := hash amount secret

/-- `withdraw.circom` lines 47–49: `nullifier = Poseidon(commitment, secret)`,
commitment as the first hash argument. -/
def withdrawNullifier (hash : F → F → F) (commitment secret : F) : F := hash commitment secret

/-- The constraint system of `Withdraw(levels)` (`withdraw.circom`
lines 26–65): the nullifier recomputed from the witness must equal the public
`nullifierHash` (line 52), and the commitment must pass `MerkleTreeChecker`
against the public `root` (lines 55–61).  `recipient` and `amount` are public
inputs with no extra constraint (lines 63–64). -/
def WithdrawConstraints (hash : F → F → F) (levels : ℕ)
    (root nullifierHash recipient amount : F)
    (secret : F) (pathElements pathIndices : List F) : Prop :=
  withdrawNullifier hash (withdrawCommitment hash amount secret) secret = nullifierHash ∧
  MerkleTreeCheckerConstraints hash levels (withdrawCommitment hash amount secret)
    root pathElements pathIndices

/-- In a field, the multiplicative constraint `s·(1−s) = 0` holds exactly for
the booleans `0` and `1`. -/
lemma dualMuxConstraint_iff (s : F) : dualMuxConstraint s ↔ s = 0 ∨ s = 1 := by
  unfold dualMuxConstraint
  rw [mul_eq_zero, sub_eq_zero]
  constructor
  · rintro (h | h)
    · exact Or.inl h
    · exact Or.inr h.symm
  · rintro (h | h)
    · exact Or.inl h
    · exact Or.inr h.symm

lemma dualMuxOut_zero (cur pe : F) : dualMuxOut cur pe (0 : F) = (cur, pe) := by
  simp [dualMuxOut]

lemma dualMuxOut_one (cur pe : F) : dualMuxOut cur pe (1 : F) = (pe, cur) := by
  simp [dualMuxOut]

/-- When every selector is boolean, the circuit's mux-based fold agrees with
the specification's if-then-else fold. -/
lemma merkleFold_eq_specMerkleFold [DecidableEq F] (hash : F → F → F) (cur : F) (path : List (F × F))
    (h : ∀ pr ∈ path, pr.2 = (0 : F) ∨ pr.2 = 1) :
    merkleFold hash cur path = specMerkleFold hash cur path := by
  induction path generalizing cur with
  | nil => rfl
  | cons pr rest ih =>
    obtain ⟨pe, pi⟩ := pr
    have hpi : pi = (0 : F) ∨ pi = 1 := h (pe, pi) (List.mem_cons_self _ _)
    have hrest : ∀ pr ∈ rest, pr.2 = (0 : F) ∨ pr.2 = 1 :=
      fun pr hpr => h pr (List.mem_cons_of_mem _ hpr)
    rcases hpi with h0 | h1
    · subst h0
      simp only [merkleFold, specMerkleFold, dualMuxOut_zero, if_pos rfl]
      exact ih _ hrest
    · subst h1
      simp only [merkleFold, specMerkleFold, dualMuxOut_one]
      rw [if_neg one_ne_zero, hashLeftRight]
      exact ih _ hrest

/-- Selector booleanity transfers between the index list and the zipped path. -/
lemma zip_snd_bool (pathElements pathIndices : List F)
    (h : ∀ s ∈ pathIndices, s = (0 : F) ∨ s = 1) :
    ∀ pr ∈ pathElements.zip pathIndices, pr.2 = (0 : F) ∨ pr.2 = 1 := by
  intro pr hpr
  exact h pr.2 (List.of_mem_zip hpr).2

end Circuit

/-! ### Concrete instantiation used by circuit witnesses

The circuit claims are generic in the field and the two-input hash; the
witnesses instantiate them at `ZMod 13` with a simple concrete hash. -/

instance fact_prime_13 : Fact (Nat.Prime 13) := ⟨by norm_num⟩

/-- A concrete two-input map standing in for `Poseidon(2)` in the witnesses. -/
def toyHash (a b : ZMod 13) : ZMod 13 := 2 * a + b

/-- C1: in the `Withdraw` circuit, for every field-element amount and secret,
the commitment is `Poseidon(amount, secret)` (amount first), the nullifier is
`Poseidon(commitment, secret)` (commitment first), and the constraint system
holds only when the public `nullifierHash` equals
`Poseidon(Poseidon(amount, secret), secret)`. -/
theorem claim_C1_withdraw_commitment_nullifier {F : Type} [Field F]
    (hash : F → F → F) (levels : ℕ) (root nullifierHash recipient amount secret : F)
    (pathElements pathIndices : List F) :
    withdrawCommitment hash amount secret = hash amount secret ∧
    withdrawNullifier hash (withdrawCommitment hash amount secret) secret =
      hash (hash amount secret) secret ∧
    (WithdrawConstraints hash levels root nullifierHash recipient amount secret
        pathElements pathIndices →
      nullifierHash = hash (hash amount secret) secret) := by
  refine ⟨rfl, rfl, fun h => ?_⟩
  exact h.1.symm

/-- Witness for C1: a concrete satisfying assignment of the `Withdraw`
constraints at depth 0 over `ZMod 13`, and the conclusion drawn from it. -/
theorem claim_C1_witness :
    WithdrawConstraints toyHash 0 (7 : ZMod 13) 4 0 2 3 [] [] ∧
      (4 : ZMod 13) = toyHash (toyHash 2 3) 3 :=
  ⟨by unfold WithdrawConstraints MerkleTreeCheckerConstraints dualMuxConstraint; decide,
   (claim_C1_withdraw_commitment_nullifier toyHash 0 7 4 0 2 3 [] []).2.2
     (by unfold WithdrawConstraints MerkleTreeCheckerConstraints dualMuxConstraint; decide)⟩

/-- C2: `MerkleTreeChecker(levels)` accepts exactly when the path arrays have
length `levels`, every direction index is boolean, and folding the leaf
bottom-up — `(current, sibling)` for index 0, `(sibling, current)` for
index 1 — reproduces the root; consequently any change to a path element or
direction bit that alters the folded value is rejected. -/
theorem claim_C2_merkle_checker_accepts_iff {F : Type} [Field F] [DecidableEq F]
    (hash : F → F → F) (levels : ℕ) (leaf root : F)
    (pathElements pathIndices : List F) :
    (MerkleTreeCheckerConstraints hash levels leaf root pathElements pathIndices ↔
      pathElements.length = levels ∧ pathIndices.length = levels ∧
      (∀ s ∈ pathIndices, s = (0 : F) ∨ s = 1) ∧
      specMerkleFold hash leaf (pathElements.zip pathIndices) = root) ∧
    (∀ pathElements' pathIndices' : List F,
      pathElements'.length = levels → pathIndices'.length = levels →
      (∀ s ∈ pathIndices', s = (0 : F) ∨ s = 1) →
      specMerkleFold hash leaf (pathElements'.zip pathIndices') ≠ root →
      ¬ MerkleTreeCheckerConstraints hash levels leaf root pathElements' pathIndices') := by
  have main : ∀ pe pi : List F,
      MerkleTreeCheckerConstraints hash levels leaf root pe pi ↔
        pe.length = levels ∧ pi.length = levels ∧
        (∀ s ∈ pi, s = (0 : F) ∨ s = 1) ∧
        specMerkleFold hash leaf (pe.zip pi) = root := by
    intro pe pi
    unfold MerkleTreeCheckerConstraints
    constructor
    · rintro ⟨h1, h2, h3, h4⟩
      have hb : ∀ s ∈ pi, s = (0 : F) ∨ s = 1 :=
        fun s hs => (dualMuxConstraint_iff s).mp (h3 s hs)
      refine ⟨h1, h2, hb, ?_⟩
      rw [← merkleFold_eq_specMerkleFold hash leaf _ (zip_snd_bool pe pi hb)]
      exact h4.symm
    · rintro ⟨h1, h2, hb, h4⟩
      refine ⟨h1, h2, fun s hs => (dualMuxConstraint_iff s).mpr (hb s hs), ?_⟩
      rw [merkleFold_eq_specMerkleFold hash leaf _ (zip_snd_bool pe pi hb)]
      exact h4.symm
  refine ⟨main pathElements pathIndices, ?_⟩
  intro pe' pi' h1 h2 hb hne hc
  exact hne ((main pe' pi').mp hc).2.2.2

/-- Witness for C2: over `ZMod 13`, a depth-1 proof with direction bit 0 is
accepted when the fold reproduces the root, and rejected at a root the fold
does not reproduce. -/
theorem claim_C2_witness :
    MerkleTreeCheckerConstraints toyHash 1 (3 : ZMod 13) 11 [5] [0] ∧
      ¬ MerkleTreeCheckerConstraints toyHash 1 (3 : ZMod 13) 12 [5] [0] :=
  ⟨(claim_C2_merkle_checker_accepts_iff toyHash 1 3 11 [5] [0]).1.mpr (by decide),
   (claim_C2_merkle_checker_accepts_iff toyHash 1 3 12 [5] [0]).2 [5] [0]
     (by decide) (by decide) (by decide) (by decide)⟩

/-! ## Polling with backoff (`frontend/lib/polling.ts`)

The probe `fn` is embedded as an oracle `probe : ℕ → Except String T` giving
the outcome of the `attempt`-th call (a resolved value or a thrown error
message); `isDone` is the caller's predicate.  Delays are rational
milliseconds; `sleep` has no observable effect beyond the delay bookkeeping,
which the loop threads exactly as the source does. -/

section Polling

variable {T : Type}

/-- `PollingOptions` (`polling.ts` lines 10–19). -/
structure PollingOptions where
  initialDelayMs : ℚ
  maxDelayMs : ℚ
  maxAttempts : ℕ
  backoffMultiplier : ℚ

/-- `DEFAULT_OPTIONS` (`polling.ts` lines 21–26). -/
def defaultPollingOptions : PollingOptions :=
  { initialDelayMs := 500, maxDelayMs := 10000, maxAttempts := 60,
    backoffMultiplier := 3 / 2 }

/-- `delay = Math.min(delay * opts.backoffMultiplier, opts.maxDelayMs)`
(`polling.ts` lines 67 and 73). -/
def nextDelay (opts : PollingOptions) (delay : ℚ) : ℚ :=
  min (delay * opts.backoffMultiplier) opts.maxDelayMs

/-- The timeout error message of `pollWithBackoff` (`polling.ts` lines 77–79):
`lastError?.message || "none"` renders a missing or empty message as
`"none"`. -/
def timeoutMessage (maxAttempts : ℕ) (lastError : Option String) : String :=
  "Polling timed out after " ++ toString maxAttempts ++ " attempts. Last error: " ++
    (match lastError with
     | some m => if m = "" then "none" else m
     | none => "none")

/-- The loop body of `pollWithBackoff` (`polling.ts` lines 55–75), indexed by
the current `attempt`, the current `delay`, and the last stored error. -/
def pollGo (probe : ℕ → Except String T) (isDone : T → Bool) (opts : PollingOptions)
    (attempt : ℕ) (delay : ℚ) (lastError : Option String) : Except String T :=
  if h : attempt < opts.maxAttempts then
    match probe attempt with
    | .ok result =>
        if isDone result then .ok result
        else pollGo probe isDone opts (attempt + 1) (nextDelay opts delay) lastError
    | .error e => pollGo probe isDone opts (attempt + 1) (nextDelay opts delay) (some e)
  else .error (timeoutMessage opts.maxAttempts lastError)
termination_by opts.maxAttempts - attempt
decreasing_by all_goals omega

/-- `pollWithBackoff` (`polling.ts` lines 46–80). -/
def pollWithBackoff (probe : ℕ → Except String T) (isDone : T → Bool)
    (opts : PollingOptions) : Except String T :=
  pollGo probe isDone opts 0 opts.initialDelayMs none

/-- The value held by `lastError` after running attempts
`attempt, …, maxAttempts − 1` starting from `acc`: each probe error overwrites
the accumulator, each probe success leaves it unchanged. -/
def lastErrorFrom (probe : ℕ → Except String T) (maxAttempts attempt : ℕ)
    (acc : Option String) : Option String :=
  if h : attempt < maxAttempts then
    lastErrorFrom probe maxAttempts (attempt + 1)
      (match probe attempt with
       | .error e => some e
       | .ok _ => acc)
  else acc
termination_by maxAttempts - attempt
decreasing_by all_goals omega

/-- `true` iff the `j`-th probe call neither throws nor satisfies `isDone`. -/
def probeNotDone (probe : ℕ → Except String T) (isDone : T → Bool) (j : ℕ) : Bool :=
  match probe j with
  | .ok u => !(isDone u)
  | .error _ => true

/-- `true` iff the `j`-th probe call resolves (does not throw). -/
def probeIsOk (probe : ℕ → Except String T) (j : ℕ) : Bool :=
  match probe j with
  | .ok _ => true
  | .error _ => false

lemma pollGo_reaches_ok (probe : ℕ → Except String T) (isDone : T → Bool)
    (opts : PollingOptions) (k : ℕ) (t : T) (hk : k < opts.maxAttempts)
    (hkd : probe k = .ok t) (ht : isDone t = true) :
    ∀ n attempt delay lastError, k - attempt = n → attempt ≤ k →
      (∀ j, attempt ≤ j → j < k → probeNotDone probe isDone j = true) →
      pollGo probe isDone opts attempt delay lastError = .ok t := by
  intro n
  induction n with
  | zero =>
    intro attempt delay lastError hn hle _
    have hak : attempt = k := by omega
    subst hak
    rw [pollGo, dif_pos hk, hkd]
    simp [ht]
  | succ m ih =>
    intro attempt delay lastError hn hle hnd
    have haltk : attempt < k := by omega
    have halt : attempt < opts.maxAttempts := by omega
    have hthis := hnd attempt le_rfl haltk
    rw [pollGo, dif_pos halt]
    cases hpa : probe attempt with
    | ok u =>
      have : isDone u = false := by
        simpa [probeNotDone, hpa] using hthis
      simp only [this, Bool.false_eq_true, if_false]
      exact ih (attempt + 1) _ _ (by omega) (by omega)
        (fun j hj1 hj2 => hnd j (by omega) hj2)
    | error e =>
      exact ih (attempt + 1) _ _ (by omega) (by omega)
        (fun j hj1 hj2 => hnd j (by omega) hj2)

lemma pollGo_timeout (probe : ℕ → Except String T) (isDone : T → Bool)
    (opts : PollingOptions) :
    ∀ n attempt delay lastError, opts.maxAttempts - attempt = n →
      (∀ j, attempt ≤ j → j < opts.maxAttempts → probeNotDone probe isDone j = true) →
      pollGo probe isDone opts attempt delay lastError =
        .error (timeoutMessage opts.maxAttempts
          (lastErrorFrom probe opts.maxAttempts attempt lastError)) := by
  intro n
  induction n with
  | zero =>
    intro attempt delay lastError hn _
    have hge : ¬ attempt < opts.maxAttempts := by omega
    rw [pollGo, dif_neg hge, lastErrorFrom, dif_neg hge]
  | succ m ih =>
    intro attempt delay lastError hn hnd
    have halt : attempt < opts.maxAttempts := by omega
    have hthis := hnd attempt le_rfl halt
    rw [pollGo, dif_pos halt, lastErrorFrom, dif_pos halt]
    cases hpa : probe attempt with
    | ok u =>
      have : isDone u = false := by
        simpa [probeNotDone, hpa] using hthis
      simp only [this, Bool.false_eq_true, if_false]
      exact ih (attempt + 1) _ _ (by omega) (fun j hj1 hj2 => hnd j (by omega) hj2)
    | error e =>
      exact ih (attempt + 1) _ _ (by omega) (fun j hj1 hj2 => hnd j (by omega) hj2)

lemma lastErrorFrom_of_all_ok (probe : ℕ → Except String T) (maxAttempts : ℕ) :
    ∀ n attempt acc, maxAttempts - attempt = n →
      (∀ j, attempt ≤ j → j < maxAttempts → probeIsOk probe j = true) →
      lastErrorFrom probe maxAttempts attempt acc = acc := by
  intro n
  induction n with
  | zero =>
    intro attempt acc hn _
    rw [lastErrorFrom, dif_neg (by omega)]
  | succ m ih =>
    intro attempt acc hn hok
    have halt : attempt < maxAttempts := by omega
    rw [lastErrorFrom, dif_pos halt]
    cases hpa : probe attempt with
    | ok u => exact ih (attempt + 1) _ (by omega) (fun j hj1 hj2 => hok j (by omega) hj2)
    | error e =>
      have := hok attempt le_rfl halt
      simp [probeIsOk, hpa] at this

lemma lastErrorFrom_last_error (probe : ℕ → Except String T) (maxAttempts : ℕ)
    (k : ℕ) (e : String) (hk : k < maxAttempts) (hke : probe k = .error e)
    (hafter : ∀ j, k < j → j < maxAttempts → probeIsOk probe j = true) :
    ∀ n attempt acc, k - attempt = n → attempt ≤ k →
      lastErrorFrom probe maxAttempts attempt acc = some e := by
  intro n
  induction n with
  | zero =>
    intro attempt acc hn hle
    have hak : attempt = k := by omega
    subst hak
    rw [lastErrorFrom, dif_pos hk, hke]
    exact lastErrorFrom_of_all_ok probe maxAttempts _ (attempt + 1) _ rfl
      (fun j hj1 hj2 => hafter j (by omega) hj2)
  | succ m ih =>
    intro attempt acc hn hle
    have halt : attempt < maxAttempts := by omega
    rw [lastErrorFrom, dif_pos halt]
    exact ih (attempt + 1) _ (by omega) (by omega)

end Polling

/-- C5: `pollWithBackoff` returns the first probe result satisfying the
predicate when one occurs within `maxAttempts` attempts; it raises a timeout
error exactly when no probe result within the bound satisfies the predicate;
probe errors are swallowed — the loop continues and the backoff delay still
advances — and the timeout error carries the message of the last observed
probe error, if any. -/
theorem claim_C5_pollWithBackoff_bound_and_timeout {T : Type}
    (probe : ℕ → Except String T) (isDone : T → Bool) (opts : PollingOptions) :
    (∀ k t, k < opts.maxAttempts →
      (∀ j, j < k → probeNotDone probe isDone j = true) →
      probe k = .ok t → isDone t = true →
      pollWithBackoff probe isDone opts = .ok t) ∧
    ((∀ j, j < opts.maxAttempts → probeNotDone probe isDone j = true) →
      pollWithBackoff probe isDone opts =
        .error (timeoutMessage opts.maxAttempts
          (lastErrorFrom probe opts.maxAttempts 0 none))) ∧
    (∀ attempt delay lastError e, attempt < opts.maxAttempts →
      probe attempt = .error e →
      pollGo probe isDone opts attempt delay lastError =
        pollGo probe isDone opts (attempt + 1) (nextDelay opts delay) (some e)) ∧
    (∀ k e, k < opts.maxAttempts → probe k = .error e →
      (∀ j, j < opts.maxAttempts → k < j → probeIsOk probe j = true) →
      (∀ j, j < opts.maxAttempts → probeNotDone probe isDone j = true) →
      pollWithBackoff probe isDone opts =
        .error (timeoutMessage opts.maxAttempts (some e))) := by
  refine ⟨?_, ?_, ?_, ?_⟩
  · intro k t hk hfirst hkt ht
    exact pollGo_reaches_ok probe isDone opts k t hk hkt ht k 0 _ none rfl
      (Nat.zero_le k) (fun j _ hj => hfirst j hj)
  · intro hnever
    exact pollGo_timeout probe isDone opts (opts.maxAttempts - 0) 0 _ none rfl
      (fun j _ hj => hnever j hj)
  · intro attempt delay lastError e halt he
    rw [pollGo, dif_pos halt, he]
  · intro k e hk hke hafter hnever
    unfold pollWithBackoff
    rw [pollGo_timeout probe isDone opts (opts.maxAttempts - 0) 0 _ none rfl
      (fun j _ hj => hnever j hj)]
    rw [lastErrorFrom_last_error probe opts.maxAttempts k e hk hke
      (fun j hj1 hj2 => hafter j hj2 hj1) (k - 0) 0 none rfl (Nat.zero_le k)]

/-- A probe for the C5 witness: the first call throws, the second resolves to
a value the predicate rejects, the third resolves to the accepted value `2`. -/
def probeSucceeds (n : ℕ) : Except String ℕ :=
  if n = 0 then .error "boom" else .ok n

/-- A probe for the C5 witness timeout half: attempt 1 throws `"bad"`, every
other attempt resolves to `0`, which the predicate rejects. -/
def probeNeverDone (n : ℕ) : Except String ℕ :=
  if n = 1 then .error "bad" else .ok 0

/-- Witness for C5: with five attempts allowed, the succeeding probe returns
the first accepted result `2`, and the never-done probe times out carrying the
last observed error `"bad"`. -/
theorem claim_C5_witness :
    pollWithBackoff probeSucceeds (fun n => n == 2)
        { initialDelayMs := 1, maxDelayMs := 10, maxAttempts := 5,
          backoffMultiplier := 2 } = .ok 2 ∧
    pollWithBackoff probeNeverDone (fun n => n == 7)
        { initialDelayMs := 1, maxDelayMs := 10, maxAttempts := 5,
          backoffMultiplier := 2 } =
      .error (timeoutMessage 5 (some "bad")) := by
  constructor
  · exact (claim_C5_pollWithBackoff_bound_and_timeout probeSucceeds (fun n => n == 2)
      { initialDelayMs := 1, maxDelayMs := 10, maxAttempts := 5,
        backoffMultiplier := 2 }).1 2 2 (by decide)
      (by decide) rfl (by decide)
  · exact (claim_C5_pollWithBackoff_bound_and_timeout probeNeverDone (fun n => n == 7)
      { initialDelayMs := 1, maxDelayMs := 10, maxAttempts := 5,
        backoffMultiplier := 2 }).2.2.2 1 "bad" (by decide) rfl
      (by decide) (by decide)

/-! ### Abortable polling (`polling.ts` lines 95–149)

`createPollingController` exposes a mutable `aborted` flag read by
`pollWithBackoffAbortable` at two points per iteration: at the top of the
loop, and inside the catch block after a probe error.  The flag's value at
those two observation points is embedded as the oracles `abortedTop` and
`abortedCatch`. -/

section Abortable

variable {T : Type}

/-- The loop of `pollWithBackoffAbortable` (`polling.ts` lines 126–146):
check the controller first, then probe; a satisfied predicate returns, a probe
error re-checks the controller; otherwise sleep, advance the delay, retry. -/
def pollAbortableGo (probe : ℕ → Except String T) (isDone : T → Bool)
    (abortedTop abortedCatch : ℕ → Bool) (opts : PollingOptions)
    (attempt : ℕ) (delay : ℚ) : Except String T :=
  if h : attempt < opts.maxAttempts then
    if abortedTop attempt then .error "Polling aborted"
    else
      match probe attempt with
      | .ok result =>
          if isDone result then .ok result
          else pollAbortableGo probe isDone abortedTop abortedCatch opts
            (attempt + 1) (nextDelay opts delay)
      | .error _ =>
          if abortedCatch attempt then .error "Polling aborted"
          else pollAbortableGo probe isDone abortedTop abortedCatch opts
            (attempt + 1) (nextDelay opts delay)
  else .error ("Polling timed out after " ++ toString opts.maxAttempts ++ " attempts")
termination_by opts.maxAttempts - attempt
decreasing_by all_goals omega

/-- `pollWithBackoffAbortable` (`polling.ts` lines 117–149). -/
def pollWithBackoffAbortable (probe : ℕ → Except String T) (isDone : T → Bool)
    (abortedTop abortedCatch : ℕ → Bool) (opts : PollingOptions) : Except String T :=
  pollAbortableGo probe isDone abortedTop abortedCatch opts 0 opts.initialDelayMs

lemma pollAbortableGo_aborted (probe : ℕ → Except String T) (isDone : T → Bool)
    (abortedTop abortedCatch : ℕ → Bool) (opts : PollingOptions)
    (attempt : ℕ) (delay : ℚ) (halt : attempt < opts.maxAttempts)
    (hab : abortedTop attempt = true) :
    pollAbortableGo probe isDone abortedTop abortedCatch opts attempt delay =
      .error "Polling aborted" := by
  rw [pollAbortableGo, dif_pos halt, if_pos hab]

lemma pollAbortableGo_reaches_abort (probe : ℕ → Except String T) (isDone : T → Bool)
    (abortedTop abortedCatch : ℕ → Bool) (opts : PollingOptions) (k : ℕ)
    (hk : k < opts.maxAttempts) (hab : abortedTop k = true) :
    ∀ n attempt delay, k - attempt = n → attempt ≤ k →
      (∀ j, attempt ≤ j → j < k →
        abortedTop j = false ∧ probeNotDone probe isDone j = true ∧
          (probeIsOk probe j = false → abortedCatch j = false)) →
      pollAbortableGo probe isDone abortedTop abortedCatch opts attempt delay =
        .error "Polling aborted" := by
  intro n
  induction n with
  | zero =>
    intro attempt delay hn hle _
    have hak : attempt = k := by omega
    subst hak
    exact pollAbortableGo_aborted probe isDone abortedTop abortedCatch opts _ _ hk hab
  | succ m ih =>
    intro attempt delay hn hle hpre
    have haltk : attempt < k := by omega
    have halt : attempt < opts.maxAttempts := by omega
    obtain ⟨htop, hnd, hcat⟩ := hpre attempt le_rfl haltk
    rw [pollAbortableGo, dif_pos halt, if_neg (by simp [htop])]
    cases hpa : probe attempt with
    | ok u =>
      have : isDone u = false := by
        simpa [probeNotDone, hpa] using hnd
      simp only [this, Bool.false_eq_true, if_false]
      exact ih (attempt + 1) _ (by omega) (by omega)
        (fun j hj1 hj2 => hpre j (by omega) hj2)
    | error e =>
      have : abortedCatch attempt = false := hcat (by simp [probeIsOk, hpa])
      rw [if_neg (by simp [this])]
      exact ih (attempt + 1) _ (by omega) (by omega)
        (fun j hj1 hj2 => hpre j (by omega) hj2)

end Abortable

/-- C9: `pollWithBackoffAbortable` checks the cancellation token first on
every loop iteration; once the token is aborted it raises a distinct
"cancelled" error, short-circuiting further probe calls (the outcome does not
depend on any probe result from the aborted iteration onward) and sleeps. -/
theorem claim_C9_abortable_cancellation {T : Type}
    (probe : ℕ → Except String T) (isDone : T → Bool)
    (abortedTop abortedCatch : ℕ → Bool) (opts : PollingOptions) :
    (∀ attempt delay, attempt < opts.maxAttempts → abortedTop attempt = true →
      pollAbortableGo probe isDone abortedTop abortedCatch opts attempt delay =
        .error "Polling aborted") ∧
    (∀ k, k < opts.maxAttempts → abortedTop k = true →
      (∀ j, j < k → abortedTop j = false ∧ probeNotDone probe isDone j = true ∧
        (probeIsOk probe j = false → abortedCatch j = false)) →
      ∀ probe2 : ℕ → Except String T, (∀ j, j < k → probe2 j = probe j) →
        pollWithBackoffAbortable probe2 isDone abortedTop abortedCatch opts =
          .error "Polling aborted") ∧
    "Polling aborted" ≠
      "Polling timed out after " ++ toString opts.maxAttempts ++ " attempts" := by
  refine ⟨?_, ?_, ?_⟩
  · intro attempt delay halt hab
    exact pollAbortableGo_aborted probe isDone abortedTop abortedCatch opts
      attempt delay halt hab
  · intro k hk hab hpre probe2 hagree
    refine pollAbortableGo_reaches_abort probe2 isDone abortedTop abortedCatch opts
      k hk hab (k - 0) 0 _ rfl (Nat.zero_le k) ?_
    intro j _ hj
    obtain ⟨h1, h2, h3⟩ := hpre j hj
    have he : probe2 j = probe j := hagree j hj
    refine ⟨h1, ?_, ?_⟩
    · simpa [probeNotDone, he] using h2
    · intro hok
      apply h3
      simpa [probeIsOk, he] using hok
  · intro h
    have hd : ("Polling aborted").data =
        ("Polling timed out after ").data ++
          ((toString opts.maxAttempts).data ++ (" attempts").data) := by
      have hx := congrArg String.data h
      rwa [String.data_append, String.data_append, List.append_assoc] at hx
    have h8 : (("Polling timed out after ").data ++
        ((toString opts.maxAttempts).data ++ (" attempts").data))[8]? =
          ("Polling timed out after ").data[8]? := by
      rw [List.getElem?_append, if_pos (by decide)]
    rw [← hd] at h8
    exact absurd h8 (by decide)

/-- A probe for the C9 witness: attempt 0 throws, later attempts resolve to a
value the predicate rejects. -/
def probeAbortWitness (n : ℕ) : Except String ℕ :=
  if n = 0 then .error "e0" else .ok 0

/-- Witness for C9: with the controller aborted from iteration 2 on, the
abortable poll raises the cancelled error even though attempts 0 and 1 failed
or were not done. -/
theorem claim_C9_witness :
    pollWithBackoffAbortable probeAbortWitness (fun n => n == 9)
        (fun n => n == 2) (fun _ => false)
        { initialDelayMs := 1, maxDelayMs := 10, maxAttempts := 5,
          backoffMultiplier := 2 } = .error "Polling aborted" :=
  (claim_C9_abortable_cancellation probeAbortWitness (fun n => n == 9)
      (fun n => n == 2) (fun _ => false)
      { initialDelayMs := 1, maxDelayMs := 10, maxAttempts := 5,
        backoffMultiplier := 2 }).2.1 2 (by decide) (by decide)
    (by decide) probeAbortWitness (fun j _ => rfl)

/-! ## Positions and secret resolution
(`frontend/lib/secret-derivation.ts`, `frontend/stores/positions.ts`,
`frontend/app/history/page.tsx`) -/

section Positions

/-- The parsed transfer payload (`transfer-parsing.ts` lines 331–335). -/
structure ParsedTransfer where
  secret : String
  commitment : String
  amount : ℕ
deriving DecidableEq

/-- `detectDenomination` (`transfer-parsing.ts` lines 354–357).  The table
`FIXED_DENOMINATIONS` lives in `lib/constants`, which is not among the
sources; its `value` fields are abstracted as the list `denomValues`. -/
def detectDenomination (denomValues : List ℕ) (amountLamports : ℕ) : Option ℕ :=
  if denomValues.contains amountLamports then some amountLamports else none

/-- The fields of a `Position` used by the core protocol.  Optional TS fields
(`nonce`, `secret`, `denomination`, `delayUntil`) become `Option`s; the
time-lock `delayUntil` is an epoch timestamp in milliseconds. -/
structure Position where
  id : String
  token : String := "SOL"
  amount : ℕ
  shieldedAmount : ℕ := 0
  timestamp : ℤ := 0
  status : String
  commitment : String
  nonce : Option String := none
  secret : Option String := none
  denomination : Option ℕ := none
  delayUntil : Option ℤ := none
deriving DecidableEq

/-- `DOMAIN_SEPARATOR`, `VERSION`, `CHAIN_ID`
(`secret-derivation.ts` lines 66–68). -/
def DOMAIN_SEPARATOR : String := "WhaleVault Shield"

def VERSION : ℕ := 1

def CHAIN_ID : String := "solana-devnet"

/-- `constructSignMessage` (`secret-derivation.ts` lines 74–83): the
newline-joined domain-separated block signed for secret derivation. -/
def constructSignMessage (nonce : String) : String :=
  String.intercalate "\n"
    [DOMAIN_SEPARATOR, "Nonce: " ++ nonce, "Chain ID: " ++ CHAIN_ID,
     "Version: " ++ toString VERSION]

/-- `deriveSecretFromNonce` (`secret-derivation.ts` lines 206–238): sign the
message built from the stored nonce, then derive the secret from the
signature with the nonce as salt.  The wallet signing transport (which may
fail: wallet missing, user rejection) and HKDF-SHA256 are external
capabilities, injected as `signMessage` and `hkdf`. -/
def deriveSecretFromNonce (signMessage : String → Except String (List ℕ))
    (hkdf : List ℕ → String → String) (nonce : String) : Except String String :=
  match signMessage (constructSignMessage nonce) with
  | .ok signature => .ok (hkdf signature nonce)
  | .error e => .error e

/-- `hasLegacySecret` (`secret-derivation.ts` lines 244–246):
`typeof position.secret === "string" && position.secret.length > 0`. -/
def hasLegacySecret (p : Position) : Bool :=
  match p.secret with
  | some s => s.length != 0
  | none => false

/-- `hasNonce` (`secret-derivation.ts` lines 251–253):
`typeof position.nonce === "string" && position.nonce.length > 0`. -/
def hasNonce (p : Position) : Bool :=
  match p.nonce with
  | some n => n.length != 0
  | none => false

/-- The error message for an unrecoverable position
(`secret-derivation.ts` lines 284–286). -/
def unrecoverableMessage : String :=
  "This position cannot be unshielded. It was created without a nonce and has no stored secret."

/-- `getPositionSecret` (`secret-derivation.ts` lines 267–287): nonce-based
derivation first, stored legacy secret second, unrecoverable otherwise. -/
def getPositionSecret (signMessage : String → Except String (List ℕ))
    (hkdf : List ℕ → String → String) (p : Position) : Except String String :=
  if hasNonce p then deriveSecretFromNonce signMessage hkdf (p.nonce.getD "")
  else if hasLegacySecret p then .ok (p.secret.getD "")
  else .error unrecoverableMessage

/-- The position record built by `handleImport`
(`history/page.tsx` lines 421–433): id is the commitment, the supplied secret
is stored directly, there is no nonce, and the status is `"shielded"`. -/
def mkImportedPosition (data : ParsedTransfer) (denomValues : List ℕ)
    (now : ℤ) : Position :=
  { id := data.commitment, token := "SOL", amount := data.amount,
    shieldedAmount := data.amount, timestamp := now, status := "shielded",
    commitment := data.commitment, secret := some data.secret,
    denomination := detectDenomination denomValues data.amount }

/-- The import step of `handleImport` (`history/page.tsx` lines 414–434)
after input parsing succeeded: reject when some stored position already
carries the parsed commitment, otherwise append the new position (the
positions store appends: `positions.ts`, `addPosition`). -/
def handleImport (storePositions : List Position) (data : ParsedTransfer)
    (denomValues : List ℕ) (now : ℤ) : Except String (List Position) :=
  if storePositions.any (fun p => p.commitment == data.commitment) then
    .error "This transfer has already been imported"
  else
    .ok (storePositions ++ [mkImportedPosition data denomValues now])

end Positions

/-- C4: `getPositionSecret` resolves in this order: a non-empty nonce wins
and the secret is derived from a signature over the nonce message; otherwise
a non-empty stored secret is returned unchanged with no derivation; otherwise
the call fails with the unrecoverable-position error. -/
theorem claim_C4_getPositionSecret_resolution_order
    (signMessage : String → Except String (List ℕ))
    (hkdf : List ℕ → String → String) (p : Position) :
    (∀ n, p.nonce = some n → n.length ≠ 0 →
      getPositionSecret signMessage hkdf p =
        deriveSecretFromNonce signMessage hkdf n ∧
      ∀ signature, signMessage (constructSignMessage n) = .ok signature →
        getPositionSecret signMessage hkdf p = .ok (hkdf signature n)) ∧
    ((∀ n, p.nonce = some n → n.length = 0) →
      ∀ s, p.secret = some s → s.length ≠ 0 →
        getPositionSecret signMessage hkdf p = .ok s) ∧
    ((∀ n, p.nonce = some n → n.length = 0) →
      (∀ s, p.secret = some s → s.length = 0) →
      getPositionSecret signMessage hkdf p = .error unrecoverableMessage) := by
  have hnonce_true : ∀ n, p.nonce = some n → n.length ≠ 0 → hasNonce p = true := by
    intro n hn hlen
    simp [hasNonce, hn, hlen]
  have hnonce_false : (∀ n, p.nonce = some n → n.length = 0) → hasNonce p = false := by
    intro h
    unfold hasNonce
    cases hn : p.nonce with
    | none => rfl
    | some n => simp [h n hn]
  refine ⟨?_, ?_, ?_⟩
  · intro n hn hlen
    have heq : getPositionSecret signMessage hkdf p =
        deriveSecretFromNonce signMessage hkdf n := by
      unfold getPositionSecret
      rw [if_pos (hnonce_true n hn hlen), hn]
      rfl
    refine ⟨heq, fun signature hsig => ?_⟩
    rw [heq]
    unfold deriveSecretFromNonce
    rw [hsig]
  · intro hno s hs hlen
    unfold getPositionSecret
    rw [if_neg (by simp [hnonce_false hno]), if_pos (by simp [hasLegacySecret, hs, hlen]),
      hs]
    rfl
  · intro hno hns
    have hleg : hasLegacySecret p = false := by
      unfold hasLegacySecret
      cases hs : p.secret with
      | none => rfl
      | some s => simp [hns s hs]
    unfold getPositionSecret
    rw [if_neg (by simp [hnonce_false hno]), if_neg (by simp [hleg])]

/-- Witness for C4: three concrete positions exercising the three branches of
the resolution order. -/
theorem claim_C4_witness :
    getPositionSecret (fun m => .ok [m.length]) (fun sig n => toString sig ++ n)
        { id := "p1", amount := 1, status := "shielded", commitment := "c1",
          nonce := some "n1" } =
      deriveSecretFromNonce (fun m => .ok [m.length]) (fun sig n => toString sig ++ n)
        "n1" ∧
    getPositionSecret (fun m => .ok [m.length]) (fun sig n => toString sig ++ n)
        { id := "p2", amount := 1, status := "shielded", commitment := "c2",
          secret := some "s2" } = .ok "s2" ∧
    getPositionSecret (fun m => .ok [m.length]) (fun sig n => toString sig ++ n)
        { id := "p3", amount := 1, status := "shielded", commitment := "c3" } =
      .error unrecoverableMessage := by
  refine ⟨?_, ?_, ?_⟩
  · exact ((claim_C4_getPositionSecret_resolution_order _ _ _).1 "n1" rfl
      (by decide)).1
  · exact (claim_C4_getPositionSecret_resolution_order _ _ _).2.1
      (by intro n hn; simp at hn) "s2" rfl (by decide)
  · exact (claim_C4_getPositionSecret_resolution_order _ _ _).2.2
      (by intro n hn; simp at hn) (by intro s hs; simp at hs)

/-- C7: importing a transfer whose commitment is already carried by a stored
position fails with the "already been imported" error and adds nothing, so
commitment values stay pairwise distinct across the local position set after
every import. -/
theorem claim_C7_import_rejects_duplicate_commitment
    (storePositions : List Position) (data : ParsedTransfer)
    (denomValues : List ℕ) (now : ℤ) :
    ((∃ p ∈ storePositions, p.commitment = data.commitment) →
      handleImport storePositions data denomValues now =
        .error "This transfer has already been imported") ∧
    (∀ result, handleImport storePositions data denomValues now = .ok result →
      (storePositions.map Position.commitment).Nodup →
      (result.map Position.commitment).Nodup) := by
  constructor
  · rintro ⟨p, hp, hcomm⟩
    unfold handleImport
    rw [if_pos]
    exact List.any_eq_true.mpr ⟨p, hp, by simp [hcomm]⟩
  · intro result hok hnd
    unfold handleImport at hok
    by_cases hdup : storePositions.any (fun p => p.commitment == data.commitment) = true
    · rw [if_pos hdup] at hok
      exact absurd hok (by simp)
    · rw [if_neg hdup] at hok
      have hres : result = storePositions ++ [mkImportedPosition data denomValues now] := by
        simpa using hok.symm
      subst hres
      have hnotin : data.commitment ∉ storePositions.map Position.commitment := by
        intro hmem
        apply hdup
        obtain ⟨p, hp, hpc⟩ := List.mem_map.mp hmem
        exact List.any_eq_true.mpr ⟨p, hp, by simp [hpc]⟩
      rw [List.map_append]
      rw [List.nodup_append]
      refine ⟨hnd, by simp [mkImportedPosition], ?_⟩
      intro a ha hb
      simp only [List.map_cons, List.map_nil, List.mem_cons, List.not_mem_nil,
        or_false] at hb
      subst hb
      exact hnotin (by simpa [mkImportedPosition] using ha)

/-- Witness for C7: importing a commitment already stored is rejected, and a
successful import into a duplicate-free store keeps commitments distinct. -/
theorem claim_C7_witness :
    handleImport
        [{ id := "aa", amount := 5, status := "shielded", commitment := "aa" }]
        { secret := "ss", commitment := "aa", amount := 5 } [] 0 =
      .error "This transfer has already been imported" ∧
    (([{ id := "aa", amount := 5, status := "shielded", commitment := "aa" },
        mkImportedPosition { secret := "ss", commitment := "bb", amount := 5 } [] 0] :
          List Position).map Position.commitment).Nodup := by
  constructor
  · exact (claim_C7_import_rejects_duplicate_commitment _ _ [] 0).1
      ⟨_, List.mem_singleton_self _, rfl⟩
  · exact (claim_C7_import_rejects_duplicate_commitment
      [{ id := "aa", amount := 5, status := "shielded", commitment := "aa" }]
      { secret := "ss", commitment := "bb", amount := 5 } [] 0).2 _ (by rfl)
      (by decide)

/-- C10: every position created by the import flow stores the supplied secret
directly (no nonce, id equal to the commitment, status `"shielded"`), so
`getPositionSecret` on it returns that stored secret through the legacy path,
for every signing capability — i.e. without requesting any wallet
signature. -/
theorem claim_C10_imported_position_legacy_secret
    (data : ParsedTransfer) (denomValues : List ℕ) (now : ℤ)
    (hs : data.secret.length ≠ 0) :
    (mkImportedPosition data denomValues now).nonce = none ∧
    (mkImportedPosition data denomValues now).secret = some data.secret ∧
    (mkImportedPosition data denomValues now).id = data.commitment ∧
    (mkImportedPosition data denomValues now).status = "shielded" ∧
    ∀ (signMessage : String → Except String (List ℕ))
      (hkdf : List ℕ → String → String),
      getPositionSecret signMessage hkdf (mkImportedPosition data denomValues now) =
        .ok data.secret := by
  refine ⟨rfl, rfl, rfl, rfl, fun signMessage hkdf => ?_⟩
  unfold getPositionSecret
  rw [if_neg (by simp [hasNonce, mkImportedPosition]),
    if_pos (by simp [hasLegacySecret, mkImportedPosition, hs])]
  rfl

/-- Witness for C10: a concrete imported position resolves to its stored
secret without consulting the signing capability. -/
theorem claim_C10_witness :
    getPositionSecret (fun _ => .error "no wallet") (fun _ _ => "")
        (mkImportedPosition { secret := "ss", commitment := "cc", amount := 7 } [] 3) =
      .ok "ss" :=
  (claim_C10_imported_position_legacy_secret
    { secret := "ss", commitment := "cc", amount := 7 } [] 3 (by decide)).2.2.2.2
    (fun _ => .error "no wallet") (fun _ _ => "")

/-! ## Private transfer control flow
(`usePrivateTransfer.transfer`, `frontend/stores/transactions.ts` source,
lines 142–311)

`transfer` awaits five external operations in order: secret derivation, proof
request, proof polling, relaying, confirmation wait.  Their outcomes are
embedded as a `TransferEnv`; the abort flag's value at the moment the catch
block runs is `abortedAtCatch`.  The observable effects — the resulting hook
state and whether `updatePosition(position.id, { status: "transferred" })`
ran — are collected in a `TransferOutcome`. -/

section Transfer

/-- Relayer response fields used by `transfer` (`RelayTransferResponse`). -/
structure RelayTransferResponse where
  signature : String
  amount : ℕ
  recipientSecret : String
  newCommitment : String
deriving DecidableEq

/-- Outcomes of the five awaited operations inside `transfer`, plus the abort
flag observed by the catch block.  `confirm = .ok false` is
`waitForTransactionConfirmation` resolving `false`. -/
structure TransferEnv where
  getPositionSecret : Except String String
  requestProof : Except String String
  pollForProof : Except String Unit
  relay : Except String RelayTransferResponse
  confirm : Except String Bool
  abortedAtCatch : Bool

/-- The externally visible result of one `transfer` run. -/
structure TransferOutcome where
  status : String
  error : Option String
  markedTransferred : Bool
  derivationAttempted : Bool
  recipientSecret : Option String
  newCommitment : Option String
deriving DecidableEq

/-- The remaining-time string of the privacy-delay error
(`transactions.ts` lines 172–175): floor hours, ceil minutes of the
remainder. -/
def lockedTimeString (remaining : ℕ) : String :=
  let hours := remaining / 3600000
  let minutes := (remaining % 3600000 + 59999) / 60000
  if hours > 0 then toString hours ++ "h " ++ toString minutes ++ "m"
  else toString minutes ++ "m"

/-- The privacy-delay error message (`transactions.ts` line 179). -/
def lockedErrorMessage (remaining : ℕ) : String :=
  "This position has a privacy delay. Available in " ++
    lockedTimeString remaining ++ "."

/-- `startsWith` on character lists (used to model JS `String.includes`). -/
def listStartsWith : List Char → List Char → Bool
  | [], _ => true
  | _ :: _, [] => false
  | p :: ps, c :: cs => p == c && listStartsWith ps cs

/-- JS `s.includes(pat)`: `pat` occurs as a contiguous substring of `s`. -/
def containsSubstring (pat : List Char) : List Char → Bool
  | [] => listStartsWith pat []
  | c :: rest => listStartsWith pat (c :: rest) || containsSubstring pat rest

/-- The user-facing message mapping of the catch block
(`transactions.ts` lines 294–300). -/
def transferUserMessage (message : String) : String :=
  if containsSubstring ("Signature required").data message.data then
    "Please sign the message to transfer your position. The signature is used to securely derive your secret."
  else if containsSubstring ("User rejected").data message.data then
    "Signature request was rejected. Please try again."
  else if containsSubstring ("Relayer").data message.data then
    "Relayer service error. Please try again later."
  else message

/-- JS `x || null` on an optional string: an empty string collapses to
`null`. -/
def jsStringOrNull (s : Option String) : Option String :=
  match s with
  | some v => if v = "" then none else some v
  | none => none

/-- The catch block of `transfer` (`transactions.ts` lines 282–310): an
aborted run returns early, leaving the status as it was and marking nothing;
otherwise the position is marked `transferred` exactly when the relayer had
already submitted, and any already-produced recipient recovery data is
preserved in the error state. -/
def transferCatch (aborted : Bool) (statusNow message : String)
    (relayerSubmitted : Bool) (transferResult : Option RelayTransferResponse) :
    TransferOutcome :=
  if aborted then
    { status := statusNow, error := none, markedTransferred := false,
      derivationAttempted := true, recipientSecret := none, newCommitment := none }
  else
    { status := "error", error := some (transferUserMessage message),
      markedTransferred := relayerSubmitted, derivationAttempted := true,
      recipientSecret :=
        jsStringOrNull (transferResult.map RelayTransferResponse.recipientSecret),
      newCommitment :=
        jsStringOrNull (transferResult.map RelayTransferResponse.newCommitment) }

/-- The try block of `transfer` (`transactions.ts` lines 190–281), stepping
through derive → request → poll → relay → confirm; `relayerSubmitted` becomes
true as soon as `relayPrivateTransfer` resolves (line 235), before the
confirmation wait. -/
def transferTry (env : TransferEnv) : TransferOutcome :=
  match env.getPositionSecret with
  | .error e => transferCatch env.abortedAtCatch "deriving" e false none
  | .ok _secret =>
    match env.requestProof with
    | .error e => transferCatch env.abortedAtCatch "requesting" e false none
    | .ok _jobId =>
      match env.pollForProof with
      | .error e => transferCatch env.abortedAtCatch "generating" e false none
      | .ok _ =>
        match env.relay with
        | .error e => transferCatch env.abortedAtCatch "relaying" e false none
        | .ok tr =>
          match env.confirm with
          | .error e => transferCatch env.abortedAtCatch "confirming" e true (some tr)
          | .ok false =>
              transferCatch env.abortedAtCatch "confirming"
                "Transaction was not confirmed on-chain. Please check the explorer and try again."
                true (some tr)
          | .ok true =>
              { status := "success", error := none, markedTransferred := true,
                derivationAttempted := true,
                recipientSecret := some tr.recipientSecret,
                newCommitment := some tr.newCommitment }

/-- `transfer` (`transactions.ts` lines 142–311): the synchronous
precondition checks — wallet connected, commitment present, recipient
plausible, no active privacy delay — then the try/catch body. -/
def transfer (env : TransferEnv) (walletConnected : Bool) (position : Position)
    (recipientAddress : String) (now : ℤ) : TransferOutcome :=
  if walletConnected = false then
    { status := "error", error := some "Wallet not connected",
      markedTransferred := false, derivationAttempted := false,
      recipientSecret := none, newCommitment := none }
  else if position.commitment = "" then
    { status := "error", error := some "Position missing commitment",
      markedTransferred := false, derivationAttempted := false,
      recipientSecret := none, newCommitment := none }
  else if recipientAddress.length < 32 then
    { status := "error", error := some "Invalid recipient address",
      markedTransferred := false, derivationAttempted := false,
      recipientSecret := none, newCommitment := none }
  else
    match position.delayUntil with
    | some delayUntil =>
        if now < delayUntil then
          { status := "error",
            error := some (lockedErrorMessage (delayUntil - now).toNat),
            markedTransferred := false, derivationAttempted := false,
            recipientSecret := none, newCommitment := none }
        else transferTry env
    | none => transferTry env

end Transfer

/-- C8: a transfer attempted on a position whose time-lock lies in the future
fails with the locked error carrying the remaining-time string computed from
the wall-clock delta, and does not reach secret derivation or any later
step. -/
theorem claim_C8_locked_position_fails_before_derivation
    (env : TransferEnv) (position : Position) (recipientAddress : String)
    (now t : ℤ)
    (hc : position.commitment ≠ "") (hr : ¬ recipientAddress.length < 32)
    (hd : position.delayUntil = some t) (hlt : now < t) :
    transfer env true position recipientAddress now =
      { status := "error",
        error := some (lockedErrorMessage (t - now).toNat),
        markedTransferred := false, derivationAttempted := false,
        recipientSecret := none, newCommitment := none } := by
  unfold transfer
  rw [if_neg (by simp), if_neg hc, if_neg hr, hd]
  dsimp only
  rw [if_pos hlt]

/-- Witness for C8: a position locked for two more hours fails with the
locked error regardless of the environment, and the message renders the
remaining delta as `2h 0m`. -/
theorem claim_C8_witness :
    transfer
        { getPositionSecret := .ok "s", requestProof := .ok "job",
          pollForProof := .ok (), relay := .ok ⟨"sig", 5, "rs", "nc"⟩,
          confirm := .ok true, abortedAtCatch := false }
        true
        { id := "p", amount := 5, status := "shielded", commitment := "c",
          delayUntil := some 7200000 }
        "recipient-address-012345678901234567890" 0 =
      { status := "error",
        error := some "This position has a privacy delay. Available in 2h 0m.",
        markedTransferred := false, derivationAttempted := false,
        recipientSecret := none, newCommitment := none } := by
  rw [claim_C8_locked_position_fails_before_derivation _ _ _ 0 7200000
    (by decide) (by decide) rfl (by decide)]
  decide

/-- C3 claims that once the relay step has succeeded the position is marked
`transferred` locally even if a later step errors *or the transfer is
cancelled afterwards*.  The code disagrees in the cancelled case: the catch
block returns early when the abort flag is set (`transactions.ts` line 283)
*before* the `relayerSubmitted` check (lines 289–291), so a cancelled run
whose confirmation wait errors leaves the position unmarked. -/
theorem claim_C3_counterexample :
    (transfer
        { getPositionSecret := .ok "s", requestProof := .ok "job",
          pollForProof := .ok (), relay := .ok ⟨"sig", 5, "rs", "nc"⟩,
          confirm := .error "RPC timeout", abortedAtCatch := true }
        true
        { id := "p", amount := 5, status := "shielded", commitment := "c" }
        "recipient-address-012345678901234567890" 0).markedTransferred = false := by
  decide

/-- C3 (amended): once the relay step has succeeded, the sender's position is
marked `transferred` locally even if a later step such as the confirmation
wait errors, provided the abort flag is not set when the error is handled; if
the transfer was cancelled beforehand, the catch block returns early and the
position is not marked. -/
theorem claim_C3_relay_success_marks_transferred
    (env : TransferEnv) (position : Position) (recipientAddress : String)
    (now : ℤ) (tr : RelayTransferResponse)
    (hc : position.commitment ≠ "") (hr : ¬ recipientAddress.length < 32)
    (hdelay : ∀ t, position.delayUntil = some t → ¬ now < t)
    (hs : ∃ s, env.getPositionSecret = .ok s)
    (hj : ∃ j, env.requestProof = .ok j)
    (hp : env.pollForProof = .ok ())
    (hrel : env.relay = .ok tr) :
    (env.abortedAtCatch = false →
      (transfer env true position recipientAddress now).markedTransferred = true) ∧
    (env.abortedAtCatch = true → env.confirm ≠ .ok true →
      (transfer env true position recipientAddress now).markedTransferred = false) := by
  obtain ⟨s, hs⟩ := hs
  obtain ⟨j, hj⟩ := hj
  have hbody : transfer env true position recipientAddress now = transferTry env := by
    unfold transfer
    rw [if_neg (by simp), if_neg hc, if_neg hr]
    cases hd : position.delayUntil with
    | none => rfl
    | some t =>
      dsimp only
      rw [if_neg (hdelay t hd)]
  have htry : ∀ ab : Bool, env.abortedAtCatch = ab →
      transferTry env =
        match env.confirm with
        | .error e => transferCatch ab "confirming" e true (some tr)
        | .ok false =>
            transferCatch ab "confirming"
              "Transaction was not confirmed on-chain. Please check the explorer and try again."
              true (some tr)
        | .ok true =>
            { status := "success", error := none, markedTransferred := true,
              derivationAttempted := true,
              recipientSecret := some tr.recipientSecret,
              newCommitment := some tr.newCommitment } := by
    intro ab hab
    unfold transferTry
    rw [hs, hj, hp, hrel, hab]
  constructor
  · intro hab
    rw [hbody, htry false hab]
    cases hcf : env.confirm with
    | error e => simp [transferCatch]
    | ok b => cases b <;> simp [transferCatch]
  · intro hab hnot
    rw [hbody, htry true hab]
    cases hcf : env.confirm with
    | error e => simp [transferCatch]
    | ok b =>
      cases b with
      | false => simp [transferCatch]
      | true => exact absurd hcf hnot

/-- Witness for C3 (amended): relay succeeded, confirmation errored, abort
flag unset — the position is marked transferred. -/
theorem claim_C3_witness :
    ((transfer
        { getPositionSecret := .ok "s", requestProof := .ok "job",
          pollForProof := .ok (), relay := .ok ⟨"sig", 5, "rs", "nc"⟩,
          confirm := .error "RPC timeout", abortedAtCatch := false }
        true
        { id := "p", amount := 5, status := "shielded", commitment := "c" }
        "recipient-address-012345678901234567890" 0).markedTransferred = true) :=
  (claim_C3_relay_success_marks_transferred
      { getPositionSecret := .ok "s", requestProof := .ok "job",
        pollForProof := .ok (), relay := .ok ⟨"sig", 5, "rs", "nc"⟩,
        confirm := .error "RPC timeout", abortedAtCatch := false }
      { id := "p", amount := 5, status := "shielded", commitment := "c" }
      "recipient-address-012345678901234567890" 0 ⟨"sig", 5, "rs", "nc"⟩
      (by decide) (by decide) (by intro t ht; simp at ht)
      ⟨"s", rfl⟩ ⟨"job", rfl⟩ rfl rfl).1 rfl

/-! ## Transfer payload text format
(`frontend/lib/transfer-parsing.ts`, "Copy All Details" in
`frontend/app/history/page.tsx`)

JS strings are embedded as `List Char` (`String.data`).  The three regexes
of `parseTransferDetails` — `/Secret:\s*([a-fA-F0-9]{64})/i`,
`/Commitment:\s*([a-fA-F0-9]{64})/i`, `/Amount:\s*(\d+)\s*lamports/i` — are
leftmost-match searches of a case-insensitive literal followed by `\s*` and a
character-class capture.  None of these fragments needs backtracking: `\s*`
is followed by a class disjoint from whitespace, and `\d+` by a
non-digit, so maximal munch is exact and the matchers below are deterministic
scanners. -/

section TransferParsing

/-- ASCII whitespace as matched by `\s` and `trim` in the texts involved. -/
def isSpaceJS (c : Char) : Bool :=
  c == ' ' || c == '\t' || c == '\n' || c == '\r' || c == '\x0b' || c == '\x0c'

/-- The character class `[a-fA-F0-9]`. -/
def isHexDigitJS (c : Char) : Bool :=
  ('a' ≤ c && c ≤ 'f') || ('A' ≤ c && c ≤ 'F') || ('0' ≤ c && c ≤ '9')

/-- The character class `\d`. -/
def isDigitJS (c : Char) : Bool := '0' ≤ c && c ≤ '9'

/-- The 16 lowercase hexadecimal characters. -/
def lowerHexCharsList : List Char := ("0123456789abcdef").data

/-- The 22 characters of `[a-fA-F0-9]`. -/
def hexCharsList : List Char := ("0123456789abcdefABCDEF").data

/-- The 10 decimal digit characters. -/
def digitCharsList : List Char := ("0123456789").data

/-- JS `toLowerCase` restricted to ASCII (every character involved here is
ASCII). -/
def toLowerCh (c : Char) : Char :=
  if 'A' ≤ c && c ≤ 'Z' then Char.ofNat (c.toNat + 32) else c

/-- Case-insensitive literal match: consume `pat` from the head of `s` and
return the remainder. -/
def matchLitCI : List Char → List Char → Option (List Char)
  | [], s => some s
  | _ :: _, [] => none
  | p :: ps, c :: cs =>
      if toLowerCh p = toLowerCh c then matchLitCI ps cs else none

/-- `{n}` repetition of a character class: exactly `n` leading characters
satisfying `pred`, returned with the remainder. -/
def takeExact (pred : Char → Bool) : ℕ → List Char → Option (List Char × List Char)
  | 0, s => some ([], s)
  | _ + 1, [] => none
  | n + 1, c :: cs =>
      if pred c then
        match takeExact pred n cs with
        | some (tk, rest) => some (c :: tk, rest)
        | none => none
      else none

/-- Attempt `/<key>\s*([a-fA-F0-9]{64})/i` at the head of `s`, returning the
64 captured characters. -/
def matchKeyHexAt (key : List Char) (s : List Char) : Option (List Char) :=
  match matchLitCI key s with
  | none => none
  | some r =>
      match takeExact isHexDigitJS 64 (r.dropWhile isSpaceJS) with
      | none => none
      | some (cap, _) => some cap

/-- Leftmost regex search: try the matcher at every suffix, earliest
first. -/
def searchGen {α : Type} (att : List Char → Option α) : List Char → Option α
  | [] => att []
  | c :: cs =>
      match att (c :: cs) with
      | some r => some r
      | none => searchGen att cs

/-- Attempt `/Amount:\s*(\d+)\s*lamports/i` at the head of `s`, returning the
captured digits: the literal `Amount:`, then `\s*`, then at least one digit,
then `\s*`, then the literal `lamports`. -/
def matchAmountAt (s : List Char) : Option (List Char) :=
  match matchLitCI ("amount:").data s with
  | none => none
  | some r =>
      match (r.dropWhile isSpaceJS).takeWhile isDigitJS with
      | [] => none
      | d :: ds =>
          match matchLitCI ("lamports").data
              (((r.dropWhile isSpaceJS).drop (d :: ds).length).dropWhile isSpaceJS) with
          | none => none
          | some _ => some (d :: ds)

/-- `parseInt(digits, 10)` on a non-empty all-digit capture. -/
def digitsToNat (ds : List Char) : ℕ :=
  ds.foldl (fun acc c => 10 * acc + (c.toNat - 48)) 0

/-- JS `text.trim()` on the ASCII texts involved. -/
def trimJS (s : List Char) : List Char :=
  ((s.dropWhile isSpaceJS).reverse.dropWhile isSpaceJS).reverse

/-- `parseTransferDetails` (`transfer-parsing.ts` lines 381–431): trim, find
the three captures anywhere in the text, require a positive amount, and
lower-case the captured hex fields.  `ParseResult` failures become
`Except.error` with the source's message. -/
def parseTransferDetails (text : String) : Except String ParsedTransfer :=
  if text = "" then .error "No text provided"
  else
    let t := trimJS text.data
    match searchGen (matchKeyHexAt ("secret:").data) t with
    | none => .error "Could not find valid secret (64 hex characters)"
    | some sec =>
      match searchGen (matchKeyHexAt ("commitment:").data) t with
      | none => .error "Could not find valid commitment (64 hex characters)"
      | some com =>
        match searchGen matchAmountAt t with
        | none => .error "Could not find valid amount in lamports"
        | some ds =>
          let amount := digitsToNat ds
          if amount = 0 then .error "Amount must be a positive number"
          else
            .ok { secret := String.mk (sec.map toLowerCh),
                  commitment := String.mk (com.map toLowerCh),
                  amount := amount }

/-- One decimal digit character. -/
def digitChar : ℕ → Char
  | 0 => '0' | 1 => '1' | 2 => '2' | 3 => '3' | 4 => '4'
  | 5 => '5' | 6 => '6' | 7 => '7' | 8 => '8' | _ => '9'

/-- Decimal rendering, most significant digit first (JS `${amount}` for a
safe integer). -/
def natToDigitsGo : ℕ → List Char → List Char
  | 0, acc => acc
  | n + 1, acc =>
      natToDigitsGo ((n + 1) / 10) (digitChar ((n + 1) % 10) :: acc)
decreasing_by exact Nat.div_lt_self (Nat.succ_pos n) (by omega)

/-- JS decimal rendering of a natural number. -/
def natToDigits (n : ℕ) : List Char :=
  if n = 0 then ['0'] else natToDigitsGo n []

/-- The "Copy All Details" text block (`history/page.tsx` lines 652–658).
`solStr` stands for the interpolated `formatSOL(...)` display value (a
floating-point `toFixed(4)` rendering that parsing ignores; the round-trip
theorem holds for every `solStr`). -/
def formatTransferDetails (secret commitment : String) (amount : ℕ)
    (solStr : String) : String :=
  "WhaleVault Private Transfer\n\nSecret: " ++ secret ++
    "\nCommitment: " ++ commitment ++
    "\nAmount: " ++ String.mk (natToDigits amount) ++ " lamports (" ++ solStr ++
    " SOL)\n\nTo claim: Import this position in WhaleVault using the secret and commitment above."

end TransferParsing

/-! ### Lemmas about the scanners -/

section TransferParsingLemmas

/-- `litFailsAt key xs = true` when the case-insensitive match of `key` fails
on a character inside `xs`, so that no continuation can rescue it. -/
def litFailsAt : List Char → List Char → Bool
  | [], _ => false
  | _ :: _, [] => false
  | p :: ps, c :: cs => if toLowerCh p = toLowerCh c then litFailsAt ps cs else true

/-- `litFailsAt` holds at every suffix position of `xs`. -/
def litFailsEverywhere (key xs : List Char) : Bool :=
  (List.range xs.length).all (fun i => litFailsAt key (xs.drop i))

/-- `key` and `xs` match case-insensitively, character for character. -/
def litMatches : List Char → List Char → Bool
  | [], [] => true
  | [], _ :: _ => false
  | _ :: _, [] => false
  | p :: ps, c :: cs => if toLowerCh p = toLowerCh c then litMatches ps cs else false

lemma matchLitCI_none_of_litFailsAt :
    ∀ key xs, litFailsAt key xs = true → ∀ rest, matchLitCI key (xs ++ rest) = none := by
  intro key
  induction key with
  | nil => intro xs h rest; simp [litFailsAt] at h
  | cons p ps ih =>
    intro xs h rest
    cases xs with
    | nil => simp [litFailsAt] at h
    | cons c cs =>
      simp only [List.cons_append, matchLitCI]
      by_cases hpc : toLowerCh p = toLowerCh c
      · rw [if_pos hpc]
        refine ih cs ?_ rest
        simpa [litFailsAt, if_pos hpc] using h
      · rw [if_neg hpc]

lemma matchLitCI_append_of_litMatches :
    ∀ key xs, litMatches key xs = true → ∀ rest, matchLitCI key (xs ++ rest) = some rest := by
  intro key
  induction key with
  | nil =>
    intro xs h rest
    cases xs with
    | nil => rfl
    | cons c cs => simp [litMatches] at h
  | cons p ps ih =>
    intro xs h rest
    cases xs with
    | nil => simp [litMatches] at h
    | cons c cs =>
      have hpc : toLowerCh p = toLowerCh c := by
        by_contra hne
        simp [litMatches, if_neg hne] at h
      simp only [List.cons_append, matchLitCI, if_pos hpc]
      refine ih cs ?_ rest
      simpa [litMatches, if_pos hpc] using h

lemma searchGen_append_skip {α : Type} (att : List Char → Option α) :
    ∀ xs rest, (∀ i, i < xs.length → att (xs.drop i ++ rest) = none) →
      searchGen att (xs ++ rest) = searchGen att rest := by
  intro xs
  induction xs with
  | nil => intro rest _; rfl
  | cons c cs ih =>
    intro rest h
    have h0 : att ((c :: cs) ++ rest) = none := by
      simpa using h 0 (by simp)
    simp only [List.cons_append] at h0 ⊢
    rw [searchGen, h0]
    exact ih rest (fun i hi => by simpa using h (i + 1) (by simpa using Nat.succ_lt_succ hi))

lemma searchGen_of_some {α : Type} (att : List Char → Option α) (s : List Char)
    (r : α) (h : att s = some r) : searchGen att s = some r := by
  cases s with
  | nil => simpa [searchGen] using h
  | cons c cs => rw [searchGen, h]

lemma matchKeyHexAt_none_of_lit (key s : List Char)
    (h : matchLitCI key s = none) : matchKeyHexAt key s = none := by
  unfold matchKeyHexAt
  rw [h]

lemma matchAmountAt_none_of_lit (s : List Char)
    (h : matchLitCI ("amount:").data s = none) : matchAmountAt s = none := by
  unfold matchAmountAt
  rw [h]

/-- Skip a region where the key's literal match fails inside the region at
every position. -/
lemma searchGen_skip_concrete {α : Type} (att : List Char → Option α)
    (key xs rest : List Char)
    (hgate : ∀ s, matchLitCI key s = none → att s = none)
    (h : litFailsEverywhere key xs = true) :
    searchGen att (xs ++ rest) = searchGen att rest := by
  refine searchGen_append_skip att xs rest (fun i hi => ?_)
  refine hgate _ (matchLitCI_none_of_litFailsAt key (xs.drop i) ?_ rest)
  have := List.all_eq_true.mp h i (List.mem_range.mpr hi)
  simpa using this

/-- Skip a region of hexadecimal characters followed by a newline, for a key
whose second character matches neither a hexadecimal character nor the
newline. -/
lemma searchGen_skip_hex {α : Type} (att : List Char → Option α)
    (k0 k1 : Char) (kr s rest : List Char)
    (hgate : ∀ u, matchLitCI (k0 :: k1 :: kr) u = none → att u = none)
    (hs : ∀ c ∈ s, c ∈ hexCharsList)
    (hk1hex : ∀ c ∈ hexCharsList, ¬ toLowerCh k1 = toLowerCh c)
    (hk1nl : ¬ toLowerCh k1 = toLowerCh '\n') :
    searchGen att (s ++ '\n' :: rest) = searchGen att ('\n' :: rest) := by
  refine searchGen_append_skip att s ('\n' :: rest) (fun i hi => ?_)
  refine hgate _ ?_
  have hne : s.drop i ≠ [] := by
    intro hnil
    have := congrArg List.length hnil
    simp at this
    omega
  obtain ⟨c, tail, hct⟩ := List.exists_cons_of_ne_nil hne
  have hcmem : c ∈ s := List.drop_subset i s (hct ▸ List.mem_cons_self c tail)
  rw [hct]
  simp only [List.cons_append, matchLitCI]
  by_cases h0 : toLowerCh k0 = toLowerCh c
  · rw [if_pos h0]
    cases tail with
    | nil =>
      simp only [List.nil_append, matchLitCI]
      rw [if_neg hk1nl]
    | cons c2 t2 =>
      have hc2mem : c2 ∈ s := by
        refine List.drop_subset i s ?_
        rw [hct]
        exact List.mem_cons_of_mem c (List.mem_cons_self c2 t2)
      simp only [List.cons_append, matchLitCI]
      rw [if_neg (hk1hex c2 (hs c2 hc2mem))]
  · rw [if_neg h0]

lemma dropWhile_append_of_all (p : Char → Bool) :
    ∀ xs ys, (∀ c ∈ xs, p c = true) →
      List.dropWhile p (xs ++ ys) = List.dropWhile p ys := by
  intro xs
  induction xs with
  | nil => intro ys _; rfl
  | cons c cs ih =>
    intro ys h
    simp only [List.cons_append, List.dropWhile_cons, h c (List.mem_cons_self c cs),
      if_true]
    exact ih ys (fun x hx => h x (List.mem_cons_of_mem c hx))

lemma dropWhile_cons_of_neg (p : Char → Bool) (c : Char) (l : List Char)
    (h : p c = false) : List.dropWhile p (c :: l) = c :: l := by
  simp [List.dropWhile_cons, h]

lemma takeWhile_append_stop (p : Char → Bool) :
    ∀ xs y ys, (∀ c ∈ xs, p c = true) → p y = false →
      List.takeWhile p (xs ++ y :: ys) = xs := by
  intro xs
  induction xs with
  | nil =>
    intro y ys _ hy
    simp [List.takeWhile_cons, hy]
  | cons c cs ih =>
    intro y ys h hy
    simp only [List.cons_append, List.takeWhile_cons, h c (List.mem_cons_self c cs),
      if_true]
    rw [ih y ys (fun x hx => h x (List.mem_cons_of_mem c hx)) hy]

lemma takeExact_append (pred : Char → Bool) :
    ∀ xs rest, (∀ c ∈ xs, pred c = true) →
      takeExact pred xs.length (xs ++ rest) = some (xs, rest) := by
  intro xs
  induction xs with
  | nil => intro rest _; rfl
  | cons c cs ih =>
    intro rest h
    simp only [List.length_cons, List.cons_append, takeExact,
      h c (List.mem_cons_self c cs), if_true]
    rw [show cs.append rest = cs ++ rest from rfl,
      ih rest (fun x hx => h x (List.mem_cons_of_mem c hx))]

/-! Character-class facts, all checked by evaluation over the explicit
character lists. -/

lemma hex_isHex : ∀ c ∈ hexCharsList, isHexDigitJS c = true := by decide

lemma hex_not_space : ∀ c ∈ hexCharsList, isSpaceJS c = false := by decide

lemma lower_sub_hex : ∀ c ∈ lowerHexCharsList, c ∈ hexCharsList := by decide

lemma hex_toLower_self : ∀ c ∈ lowerHexCharsList, toLowerCh c = c := by decide

lemma hex_ne_o : ∀ c ∈ hexCharsList, ¬ toLowerCh 'o' = toLowerCh c := by decide

lemma hex_ne_m : ∀ c ∈ hexCharsList, ¬ toLowerCh 'm' = toLowerCh c := by decide

lemma digit_isDigit : ∀ c ∈ digitCharsList, isDigitJS c = true := by decide

lemma digit_not_space : ∀ c ∈ digitCharsList, isSpaceJS c = false := by decide

/-- A successful `/<key>\s*([a-fA-F0-9]{64})/i` attempt at a position where
the text reads `<xs><space><cap>…` with `xs` matching the key
case-insensitively and `cap` a 64-character hex block. -/
lemma matchKeyHexAt_found (key xs cap rest : List Char)
    (hmatch : litMatches key xs = true)
    (hcap : ∀ c ∈ cap, c ∈ hexCharsList) (hlen : cap.length = 64) :
    matchKeyHexAt key (xs ++ ([' '] ++ (cap ++ rest))) = some cap := by
  unfold matchKeyHexAt
  rw [matchLitCI_append_of_litMatches key xs hmatch ([' '] ++ (cap ++ rest))]
  dsimp only
  have hne : cap ≠ [] := by
    intro h
    rw [h] at hlen
    simp at hlen
  obtain ⟨c0, ctail, hc⟩ := List.exists_cons_of_ne_nil hne
  have hdrop : List.dropWhile isSpaceJS ([' '] ++ (cap ++ rest)) = cap ++ rest := by
    rw [dropWhile_append_of_all isSpaceJS [' '] _ (by decide), hc, List.cons_append]
    exact dropWhile_cons_of_neg _ _ _
      (hex_not_space c0 (hcap c0 (hc ▸ List.mem_cons_self c0 ctail)))
  rw [hdrop, ← hlen,
    takeExact_append isHexDigitJS cap rest (fun c hcm => hex_isHex c (hcap c hcm))]

/-- A successful `/Amount:\s*(\d+)\s*lamports/i` attempt at a position where
the text reads `Amount: <ds> lamports…` with `ds` a non-empty digit block. -/
lemma matchAmountAt_found (ds rest : List Char)
    (hds : ∀ c ∈ ds, c ∈ digitCharsList) (hne : ds ≠ []) :
    matchAmountAt (("Amount:").data ++
        ([' '] ++ (ds ++ (' ' :: (("lamports").data ++ rest))))) = some ds := by
  unfold matchAmountAt
  rw [matchLitCI_append_of_litMatches ("amount:").data ("Amount:").data (by decide) _]
  dsimp only
  obtain ⟨d0, dtail, hd⟩ := List.exists_cons_of_ne_nil hne
  have hdrop : List.dropWhile isSpaceJS
      ([' '] ++ (ds ++ (' ' :: (("lamports").data ++ rest)))) =
        ds ++ (' ' :: (("lamports").data ++ rest)) := by
    rw [dropWhile_append_of_all isSpaceJS [' '] _ (by decide), hd, List.cons_append]
    exact dropWhile_cons_of_neg _ _ _
      (digit_not_space d0 (hds d0 (hd ▸ List.mem_cons_self d0 dtail)))
  rw [hdrop]
  have htake : List.takeWhile isDigitJS (ds ++ (' ' :: (("lamports").data ++ rest))) = ds :=
    takeWhile_append_stop isDigitJS ds ' ' _
      (fun c hcm => digit_isDigit c (hds c hcm)) (by decide)
  rw [htake, hd]
  dsimp only
  rw [← hd, ← htake]
  rw [htake, hd, show (d0 :: dtail).length = (d0 :: dtail).length from rfl, ← hd]
  rw [List.drop_left ds (' ' :: (("lamports").data ++ rest))]
  rw [show (' ' :: (("lamports").data ++ rest)) =
    [' '] ++ (("lamports").data ++ rest) from rfl]
  rw [dropWhile_append_of_all isSpaceJS [' '] _ (by decide)]
  have hlam : ("lamports").data = 'l' :: ("amports").data := by decide
  rw [hlam, List.cons_append,
    dropWhile_cons_of_neg isSpaceJS 'l' _ (by decide), ← List.cons_append, ← hlam,
    matchLitCI_append_of_litMatches ("lamports").data ("lamports").data (by decide) rest]

lemma digitChar_toNat : ∀ m, m < 10 → (digitChar m).toNat - 48 = m := by decide

lemma digitChar_mem : ∀ m, m < 10 → digitChar m ∈ digitCharsList := by decide

lemma natToDigitsGo_acc (n : ℕ) :
    ∀ acc, natToDigitsGo n acc = natToDigitsGo n [] ++ acc := by
  induction n using Nat.strong_induction_on with
  | _ n ih =>
    intro acc
    match n with
    | 0 => rw [natToDigitsGo, natToDigitsGo, List.nil_append]
    | m + 1 =>
      rw [natToDigitsGo, natToDigitsGo,
        ih ((m + 1) / 10) (Nat.div_lt_self (Nat.succ_pos m) (by omega))
          (digitChar ((m + 1) % 10) :: acc),
        ih ((m + 1) / 10) (Nat.div_lt_self (Nat.succ_pos m) (by omega))
          (digitChar ((m + 1) % 10) :: [])]
      simp

lemma digitsToNat_append_singleton (l : List Char) (d : Char) :
    digitsToNat (l ++ [d]) = 10 * digitsToNat l + (d.toNat - 48) := by
  unfold digitsToNat
  rw [List.foldl_append]
  rfl

lemma digitsToNat_natToDigitsGo (n : ℕ) (hn : n ≠ 0) :
    digitsToNat (natToDigitsGo n []) = n := by
  induction n using Nat.strong_induction_on with
  | _ n ih =>
    match n with
    | 0 => exact absurd rfl hn
    | m + 1 =>
      rw [natToDigitsGo, natToDigitsGo_acc ((m + 1) / 10),
        digitsToNat_append_singleton, digitChar_toNat ((m + 1) % 10) (by omega)]
      by_cases hq : (m + 1) / 10 = 0
      · rw [hq]
        have hz : natToDigitsGo 0 [] = [] := by rw [natToDigitsGo]
        rw [hz]
        have : digitsToNat [] = 0 := rfl
        rw [this]
        omega
      · rw [ih ((m + 1) / 10) (Nat.div_lt_self (Nat.succ_pos m) (by omega)) hq]
        omega

lemma digitsToNat_natToDigits (n : ℕ) : digitsToNat (natToDigits n) = n := by
  unfold natToDigits
  by_cases h : n = 0
  · rw [if_pos h, h]
    rfl
  · rw [if_neg h]
    exact digitsToNat_natToDigitsGo n h

lemma natToDigitsGo_mem (n : ℕ) :
    ∀ c ∈ natToDigitsGo n [], c ∈ digitCharsList := by
  induction n using Nat.strong_induction_on with
  | _ n ih =>
    match n with
    | 0 => intro c hc; simp [natToDigitsGo] at hc
    | m + 1 =>
      intro c hc
      rw [natToDigitsGo, natToDigitsGo_acc ((m + 1) / 10)] at hc
      rcases List.mem_append.mp hc with hmem | hmem
      · exact ih ((m + 1) / 10) (Nat.div_lt_self (Nat.succ_pos m) (by omega)) c hmem
      · have : c = digitChar ((m + 1) % 10) := by simpa using hmem
        rw [this]
        exact digitChar_mem ((m + 1) % 10) (by omega)

lemma natToDigits_mem (n : ℕ) : ∀ c ∈ natToDigits n, c ∈ digitCharsList := by
  unfold natToDigits
  by_cases h : n = 0
  · rw [if_pos h]
    decide
  · rw [if_neg h]
    exact natToDigitsGo_mem n

lemma natToDigits_ne_nil (n : ℕ) : natToDigits n ≠ [] := by
  unfold natToDigits
  by_cases h : n = 0
  · rw [if_pos h]
    simp
  · rw [if_neg h]
    match n, h with
    | m + 1, _ =>
      rw [natToDigitsGo, natToDigitsGo_acc ((m + 1) / 10)]
      simp

lemma map_toLower_of_lower (l : List Char)
    (h : ∀ c ∈ l, c ∈ lowerHexCharsList) : l.map toLowerCh = l := by
  induction l with
  | nil => rfl
  | cons c cs ih =>
    rw [List.map_cons, hex_toLower_self c (h c (List.mem_cons_self c cs)),
      ih (fun x hx => h x (List.mem_cons_of_mem c hx))]

lemma trimJS_eq_self_of (l : List Char) (a b : Char)
    (hh : l.head? = some a) (ha : isSpaceJS a = false)
    (hl : l.getLast? = some b) (hb : isSpaceJS b = false) :
    trimJS l = l := by
  cases l with
  | nil => simp at hh
  | cons c cs =>
    have hac : c = a := by simpa using hh
    subst hac
    unfold trimJS
    rw [dropWhile_cons_of_neg isSpaceJS c cs ha]
    have hrev : (c :: cs).reverse.head? = some b := by
      rw [List.head?_reverse]
      exact hl
    cases hr : (c :: cs).reverse with
    | nil =>
      have := congrArg List.length hr
      simp at this
    | cons d ds =>
      have hdb : d = b := by
        rw [hr] at hrev
        simpa using hrev
      subst hdb
      rw [dropWhile_cons_of_neg isSpaceJS d ds hb, ← hr, List.reverse_reverse]

end TransferParsingLemmas

/-- C6: formatting a (secret, commitment, amount) triple with 64-character
hex secret and commitment and positive amount into the shareable
"WhaleVault Private Transfer" block and re-parsing it succeeds and returns
the triple with the hex fields lower-cased — hence exactly the original
triple when they are lowercase to begin with.  The block's title line and
"To claim" trailer are tolerated as surrounding free text, the keys are
matched case-insensitively, and the result holds for every rendering
`solStr` of the parenthesised SOL display value. -/
theorem claim_C6_transfer_details_round_trip
    (secret commitment : String) (amount : ℕ) (solStr : String)
    (hS : ∀ c ∈ secret.data, c ∈ hexCharsList) (hS64 : secret.data.length = 64)
    (hC : ∀ c ∈ commitment.data, c ∈ hexCharsList)
    (hC64 : commitment.data.length = 64) (hA : 0 < amount) :
    parseTransferDetails (formatTransferDetails secret commitment amount solStr) =
      .ok { secret := String.mk (secret.data.map toLowerCh),
            commitment := String.mk (commitment.data.map toLowerCh),
            amount := amount } ∧
    ((∀ c ∈ secret.data, c ∈ lowerHexCharsList) →
      (∀ c ∈ commitment.data, c ∈ lowerHexCharsList) →
      parseTransferDetails (formatTransferDetails secret commitment amount solStr) =
        .ok { secret := secret, commitment := commitment, amount := amount }) := by
  have edata : ∀ l : List Char, (String.mk l).data = l := fun l => rfl
  have e1 : ("WhaleVault Private Transfer\n\nSecret: ").data =
      ("WhaleVault Private Transfer\n\n").data ++ (("Secret:").data ++ [' ']) := by
    decide
  have e2 : ("\nCommitment: ").data = ['\n'] ++ (("Commitment:").data ++ [' ']) := by
    decide
  have e3 : ("\nAmount: ").data = ['\n'] ++ (("Amount:").data ++ [' ']) := by decide
  have e4 : (" lamports (").data = [' '] ++ (("lamports").data ++ [' ', '(']) := by
    decide
  have hT : (formatTransferDetails secret commitment amount solStr).data =
      ("WhaleVault Private Transfer\n\n").data ++ (("Secret:").data ++ ([' '] ++
        (secret.data ++ (['\n'] ++ (("Commitment:").data ++ ([' '] ++
        (commitment.data ++ (['\n'] ++ (("Amount:").data ++ ([' '] ++
        (natToDigits amount ++ ([' '] ++ (("lamports").data ++ ([' ', '('] ++
        (solStr.data ++
          (" SOL)\n\nTo claim: Import this position in WhaleVault using the secret and commitment above.").data))))))))))))))) := by
    simp only [formatTransferDetails, String.data_append, edata, e1, e2, e3, e4,
      List.append_assoc, List.cons_append, List.nil_append]
  have hne : formatTransferDetails secret commitment amount solStr ≠ "" := by
    intro h
    have hd := congrArg String.data h
    rw [hT] at hd
    have hz : ("" : String).data = [] := rfl
    rw [hz] at hd
    exact absurd (List.append_eq_nil.mp hd).1 (by decide)
  have hhead : (formatTransferDetails secret commitment amount solStr).data.head? =
      some 'W' := by
    rw [hT, List.head?_append,
      show (("WhaleVault Private Transfer\n\n").data).head? = some 'W' from by decide]
    rfl
  have hlast : (formatTransferDetails secret commitment amount solStr).data.getLast? =
      some '.' := by
    rw [hT]
    simp only [List.getLast?_append,
      show ((" SOL)\n\nTo claim: Import this position in WhaleVault using the secret and commitment above.").data).getLast? =
        some '.' from by decide,
      Option.or_some]
  have htrim : trimJS (formatTransferDetails secret commitment amount solStr).data =
      (formatTransferDetails secret commitment amount solStr).data :=
    trimJS_eq_self_of _ 'W' '.' hhead (by decide) hlast (by decide)
  have hkeyC : ("commitment:").data = 'c' :: ('o' :: ("mmitment:").data) := by decide
  have hkeyA : ("amount:").data = 'a' :: ('m' :: ("ount:").data) := by decide
  have hgateC : ∀ u, matchLitCI ('c' :: ('o' :: ("mmitment:").data)) u = none →
      matchKeyHexAt ("commitment:").data u = none := by
    intro u hu
    refine matchKeyHexAt_none_of_lit _ u ?_
    rw [hkeyC]
    exact hu
  have hgateA : ∀ u, matchLitCI ('a' :: ('m' :: ("ount:").data)) u = none →
      matchAmountAt u = none := by
    intro u hu
    refine matchAmountAt_none_of_lit u ?_
    rw [hkeyA]
    exact hu
  have hsec : searchGen (matchKeyHexAt ("secret:").data)
      (formatTransferDetails secret commitment amount solStr).data =
        some secret.data := by
    rw [hT]
    exact (searchGen_skip_concrete _ ("secret:").data _ _
        (matchKeyHexAt_none_of_lit _) (by decide)).trans
      (searchGen_of_some _ _ _
        (matchKeyHexAt_found ("secret:").data ("Secret:").data secret.data _
          (by decide) hS hS64))
  have hcom : searchGen (matchKeyHexAt ("commitment:").data)
      (formatTransferDetails secret commitment amount solStr).data =
        some commitment.data := by
    rw [hT]
    refine (searchGen_skip_concrete _ ("commitment:").data _ _
        (matchKeyHexAt_none_of_lit _) (by decide)).trans ?_
    refine (searchGen_skip_concrete _ ("commitment:").data _ _
        (matchKeyHexAt_none_of_lit _) (by decide)).trans ?_
    refine (searchGen_skip_concrete _ ("commitment:").data _ _
        (matchKeyHexAt_none_of_lit _) (by decide)).trans ?_
    refine (searchGen_skip_hex _ 'c' 'o' ("mmitment:").data secret.data _
        hgateC hS hex_ne_o (by decide)).trans ?_
    refine (searchGen_skip_concrete _ ("commitment:").data ['\n'] _
        (matchKeyHexAt_none_of_lit _) (by decide)).trans ?_
    exact searchGen_of_some _ _ _
      (matchKeyHexAt_found ("commitment:").data ("Commitment:").data commitment.data _
        (by decide) hC hC64)
  have hamt : searchGen matchAmountAt
      (formatTransferDetails secret commitment amount solStr).data =
        some (natToDigits amount) := by
    rw [hT]
    refine (searchGen_skip_concrete _ ("amount:").data _ _
        matchAmountAt_none_of_lit (by decide)).trans ?_
    refine (searchGen_skip_concrete _ ("amount:").data _ _
        matchAmountAt_none_of_lit (by decide)).trans ?_
    refine (searchGen_skip_concrete _ ("amount:").data _ _
        matchAmountAt_none_of_lit (by decide)).trans ?_
    refine (searchGen_skip_hex _ 'a' 'm' ("ount:").data secret.data _
        hgateA hS hex_ne_m (by decide)).trans ?_
    refine (searchGen_skip_concrete _ ("amount:").data ['\n'] _
        matchAmountAt_none_of_lit (by decide)).trans ?_
    refine (searchGen_skip_concrete _ ("amount:").data _ _
        matchAmountAt_none_of_lit (by decide)).trans ?_
    refine (searchGen_skip_concrete _ ("amount:").data _ _
        matchAmountAt_none_of_lit (by decide)).trans ?_
    refine (searchGen_skip_hex _ 'a' 'm' ("ount:").data commitment.data _
        hgateA hC hex_ne_m (by decide)).trans ?_
    refine (searchGen_skip_concrete _ ("amount:").data ['\n'] _
        matchAmountAt_none_of_lit (by decide)).trans ?_
    exact searchGen_of_some _ _ _
      (matchAmountAt_found (natToDigits amount) _
        (natToDigits_mem amount) (natToDigits_ne_nil amount))
  have hmain : parseTransferDetails
      (formatTransferDetails secret commitment amount solStr) =
        .ok { secret := String.mk (secret.data.map toLowerCh),
              commitment := String.mk (commitment.data.map toLowerCh),
              amount := amount } := by
    unfold parseTransferDetails
    rw [if_neg hne]
    dsimp only
    rw [htrim, hsec]
    dsimp only
    rw [hcom]
    dsimp only
    rw [hamt]
    dsimp only
    rw [digitsToNat_natToDigits]
    rw [if_neg (by omega)]
  refine ⟨hmain, fun hSl hCl => ?_⟩
  rw [hmain, map_toLower_of_lower secret.data hSl,
    map_toLower_of_lower commitment.data hCl]

/-- Witness for C6: a concrete lowercase-hex triple round-trips through the
shareable block exactly. -/
theorem claim_C6_witness :
    parseTransferDetails (formatTransferDetails
        "aaaaaaaaaaaaaaaaaaaaaaaaaaaaaaaaaaaaaaaaaaaaaaaaaaaaaaaaaaaaaaaa"
        "0123456789abcdef0123456789abcdef0123456789abcdef0123456789abcdef"
        1000000000 "1.0000") =
      .ok { secret := "aaaaaaaaaaaaaaaaaaaaaaaaaaaaaaaaaaaaaaaaaaaaaaaaaaaaaaaaaaaaaaaa",
            commitment := "0123456789abcdef0123456789abcdef0123456789abcdef0123456789abcdef",
            amount := 1000000000 } :=
  (claim_C6_transfer_details_round_trip
      "aaaaaaaaaaaaaaaaaaaaaaaaaaaaaaaaaaaaaaaaaaaaaaaaaaaaaaaaaaaaaaaa"
      "0123456789abcdef0123456789abcdef0123456789abcdef0123456789abcdef"
      1000000000 "1.0000" (by decide) (by decide) (by decide) (by decide)
      (by decide)).2 (by decide) (by decide)

end WhaleVault
